import Mathlib

/-!
Shallow embedding of the Xcode project-manifest editor of
`rn-upgrader-mcp` (`src/index.ts`), centred on the `sync_xcode_project`
tool handler: the path classifier, the group locator, the remove-path
matcher, the cascading removal, and the surrounding tool-call dispatch.
Pure string manipulation from the source is modelled over `List Char`
so that every definition evaluates inside the kernel.
-/

namespace RnUpgrader

/-- JavaScript replace of every double-quote character by nothing. -/
def stripQuotes (s : String) : String :=
  ⟨s.data.filter (fun c => c ≠ '"')⟩

/-- Split a character list on a separator character, JS `String.split` style:
splitting a list with no separator yields one segment, and a trailing
separator yields a trailing empty segment. -/
def splitCharAux (sep : Char) : List Char → List Char → List (List Char)
  | [], acc => [acc.reverse]
  | c :: cs, acc =>
      if c = sep then acc.reverse :: splitCharAux sep cs []
      else splitCharAux sep cs (c :: acc)

/-- JS `s.split(sep)` for a one-character separator. -/
def jsSplit (sep : Char) (s : String) : List String :=
  (splitCharAux sep s.data []).map (fun l => ⟨l⟩)

/-- JS `s.split(sep).pop()`: the last segment (`split` never returns an
empty array, so `pop` always yields a value; `""` is an unreachable
default). -/
def lastSegment (sep : Char) (s : String) : String :=
  ((jsSplit sep s).getLast?).getD ""

/-- ASCII lower-casing of one character, modelling JS `toLowerCase` on the
ASCII inputs this tool handles. -/
def lowerChar (c : Char) : Char :=
  if 'A' ≤ c ∧ c ≤ 'Z' then Char.ofNat (c.toNat + 32) else c

/-- JS `s.toLowerCase()` (ASCII). -/
def jsToLower (s : String) : String :=
  ⟨s.data.map lowerChar⟩

/-- `filePath.split('.').pop()?.toLowerCase()` from `src/index.ts` — the
extension used by the classifier (for a dot-free name this is the whole
name, as in JS). -/
def extOf (filePath : String) : String :=
  jsToLower (lastSegment '.' filePath)

/-- JS split on slash then pop from `src/index.ts` — the basename
used by the remove-path matcher. -/
def basename (p : String) : String :=
  lastSegment '/' p

/-- JS `s.endsWith(suffix)`. -/
def strEndsWith (s suffix : String) : Bool :=
  suffix.data.isSuffixOf s.data

/-- JS `s.startsWith(prefix)`. -/
def strStartsWith (s p : String) : Bool :=
  p.data.isPrefixOf s.data

/-- JS `s.substring n`: drop the first `n` characters. -/
def strDrop (s : String) (n : Nat) : String :=
  ⟨s.data.drop n⟩

/-- The four file categories of the classifier (spec §4.2 kinds). -/
inductive Kind
  | source
  | header
  | frameworkOrLib
  | resource
  deriving DecidableEq, Repr

/-- The extension dispatch of the add branch of `sync_xcode_project`
(`src/index.ts` lines 680–707): `swift/m/mm/cpp/c` → source,
`h/hpp` → header, `framework/a/dylib` → framework-or-library,
anything else → resource.  Input is the already-lowercased extension. -/
def classifyExt (ext : String) : Kind :=
  if ext = "swift" ∨ ext = "m" ∨ ext = "mm" ∨ ext = "cpp" ∨ ext = "c" then
    Kind.source
  else if ext = "h" ∨ ext = "hpp" then
    Kind.header
  else if ext = "framework" ∨ ext = "a" ∨ ext = "dylib" then
    Kind.frameworkOrLib
  else
    Kind.resource

/-- One `PBXFileReference` object: the fields `path` and `name` the tool
reads (`none` models a missing field, `some ""` an empty string, which JS
treats as falsy — see `jsOrStr`). -/
structure FileRef where
  path : Option String
  name : Option String
  deriving DecidableEq, Repr

/-- One `PBXBuildFile` object (a build membership): its `fileRef` field. -/
structure BuildFile where
  fileRef : String
  deriving DecidableEq, Repr

/-- One element of a `PBXGroup.children` or `PBXBuildPhase.files` array:
the tool only reads its `value` field (an object UUID). -/
structure ChildRef where
  value : String
  deriving DecidableEq, Repr

/-- One `PBXGroup` object: the tool reads only its `children` array. -/
structure Group where
  children : List ChildRef
  deriving DecidableEq, Repr

/-- One build-phase object (`PBXSourcesBuildPhase` /
`PBXResourcesBuildPhase` / `PBXFrameworksBuildPhase`): its `files` array. -/
structure Phase where
  files : List ChildRef
  deriving DecidableEq, Repr

/-- One entry of a pbxproj object table.  `key` is the JS object key;
`comment` models the JS test of whether the key contains the comment marker, the guard every loop in the
source uses to skip comment entries.  The list order is the stable
key-insertion order of the JS object (the table iteration order of the
spec). -/
structure Entry (α : Type) where
  key : String
  comment : Bool
  val : α
  deriving DecidableEq, Repr

/-- The slice of `project.hash.project.objects` that `sync_xcode_project`
touches: file references, build files, groups and the three build-phase
sections. -/
structure PBX where
  fileRefs : List (Entry FileRef)
  buildFiles : List (Entry BuildFile)
  groups : List (Entry Group)
  sourcesPhases : List (Entry Phase)
  resourcesPhases : List (Entry Phase)
  frameworksPhases : List (Entry Phase)
  deriving DecidableEq, Repr

/-- JS `a || b` on two possibly-missing strings: an empty string is falsy
and falls through to the second operand. -/
def jsOrStr (a b : Option String) : Option String :=
  match a with
  | some s => if s = "" then (match b with
      | some t => if t = "" then none else some t
      | none => none) else some s
  | none => match b with
      | some t => if t = "" then none else some t
      | none => none

/-- `refObj.path || refObj.name` (the guard and the display string of the
remove matcher, quotes not yet stripped). -/
def refDisplay (r : FileRef) : Option String :=
  jsOrStr r.path r.name

/-- The path normalisation of the remove branch (`src/index.ts` lines 710–714):
strip a leading literal `ios/` prefix. -/
def normalizeRemovePath (filePath : String) : String :=
  if strStartsWith filePath "ios/" then strDrop filePath 4 else filePath

/-- The disjunction of matching conditions the remove branch applies to one
(quote-stripped) display path of a file reference (`src/index.ts`
lines 731–735). -/
def removeMatches (normalizedPath refPath : String) : Bool :=
  let fileName := basename normalizedPath
  refPath = normalizedPath ∨ refPath = fileName ∨
    strEndsWith refPath ("/" ++ normalizedPath) ∨
    strEndsWith refPath ("/" ++ fileName) ∨
    strEndsWith normalizedPath ("/" ++ refPath)

/-- Whether one `PBXFileReference` table entry is accepted by the remove
scan of the matcher: not a comment entry, has a truthy `path` or `name`, and its
quote-stripped display path satisfies `removeMatches`. -/
def entryMatchesRemove (normalizedPath : String) (e : Entry FileRef) : Bool :=
  !e.comment &&
    (match refDisplay e.val with
     | some raw => removeMatches normalizedPath (stripQuotes raw)
     | none => false)

/-- The remove matcher (`src/index.ts` lines 722–741): one scan over the
`PBXFileReference` table in iteration order; the first entry satisfying any
of the matching conditions wins.  Returns the matching entry. -/
def findFileRef (pbx : PBX) (normalizedPath : String) : Option (Entry FileRef) :=
  pbx.fileRefs.find? (entryMatchesRemove normalizedPath)

/-- The build-file lookup of the remove branch (`src/index.ts`
lines 745–753): the first non-comment `PBXBuildFile` whose `fileRef` is the
UUID of the matched file reference. -/
def findBuildFileKey (pbx : PBX) (fileRef : String) : Option String :=
  (pbx.buildFiles.find? (fun e => !e.comment && e.val.fileRef = fileRef)).map (·.key)

/-- `phase.files.filter(f => f.value !== buildFileUuid)` applied to every
non-comment phase of one section (`src/index.ts` lines 823–833); when
`buildFileUuid` is `null` the strict inequality against a string is always
true and the filter keeps everything. -/
def scrubPhaseSection (buildFileUuid : Option String) :
    List (Entry Phase) → List (Entry Phase) :=
  List.map (fun e =>
    if e.comment then e
    else { e with val := { files := match buildFileUuid with
      | some u => e.val.files.filter (fun f => f.value ≠ u)
      | none => e.val.files } })

/-- The manual cascade removal of the remove branch of `sync_xcode_project`
(`src/index.ts` lines 805–846): delete the file-reference entry (and its
comment companion), delete the found build-file entry (and companion),
filter the build-file UUID out of every build phase of all three sections,
and filter the file-reference UUID out of the children of every group. -/
def removeCascade (pbx : PBX) (fileRef : String) (buildFileUuid : Option String) : PBX :=
  { fileRefs := pbx.fileRefs.filter
      (fun e => e.key ≠ fileRef ∧ e.key ≠ fileRef ++ "_comment")
    buildFiles := match buildFileUuid with
      | some u => pbx.buildFiles.filter
          (fun e => e.key ≠ u ∧ e.key ≠ u ++ "_comment")
      | none => pbx.buildFiles
    groups := pbx.groups.map (fun e =>
      if e.comment then e
      else { e with val := { children :=
        e.val.children.filter (fun c => c.value ≠ fileRef) } })
    sourcesPhases := scrubPhaseSection buildFileUuid pbx.sourcesPhases
    resourcesPhases := scrubPhaseSection buildFileUuid pbx.resourcesPhases
    frameworksPhases := scrubPhaseSection buildFileUuid pbx.frameworksPhases }

/-- The quote-stripped display paths of all non-comment file references, in
table order — the candidate list the remove branch samples for its
not-found diagnostic (`src/index.ts` lines 854–862). -/
def existingPaths (pbx : PBX) : List String :=
  pbx.fileRefs.filterMap (fun e =>
    if e.comment then none
    else (refDisplay e.val).map stripQuotes)

/-- The outcome of the remove branch. -/
inductive RemoveOutcome
  | removed (normalizedPath : String)
  | notFound (normalizedPath : String) (sample : List String)
  deriving DecidableEq, Repr

/-- The remove branch of `sync_xcode_project` (`src/index.ts`
lines 709–864): normalise the path, scan for a matching file reference; on
a match run the cascade owned by the repository (the manual fallback of
lines 805–846 — the preceding `removeSourceFile`-style calls live in the
external `xcode` package, outside this repository); on no match build the
sampled diagnostic list and leave the graph untouched. -/
def removeOp (pbx : PBX) (filePath : String) : RemoveOutcome × PBX :=
  let np := normalizeRemovePath filePath
  match findFileRef pbx np with
  | some e =>
      (RemoveOutcome.removed np,
       removeCascade pbx e.key (findBuildFileKey pbx e.key))
  | none =>
      (RemoveOutcome.notFound np ((existingPaths pbx).take 10), pbx)

/-- JS-object lookup by UUID in the PBXFileReference table on a table:
the (unique-keyed) entry with that key. -/
def lookupKey (uuid : String) (l : List (Entry FileRef)) : Option FileRef :=
  (l.find? (fun e => e.key = uuid)).map (·.val)

/-- The per-child test of the group locator (`src/index.ts` lines 665–671):
the UUID of the child resolves to a file reference whose truthy `path`, quotes
stripped, ends in `.swift`, `.m` or `.mm`. -/
def childIsSourceFile (pbx : PBX) (c : ChildRef) : Bool :=
  match lookupKey c.value pbx.fileRefs with
  | some fr =>
      (match fr.path with
       | some p =>
           if p = "" then false
           else
             let q := stripQuotes p
             strEndsWith q ".swift" || strEndsWith q ".m" || strEndsWith q ".mm"
       | none => false)
  | none => false

/-- The group locator of the add branch of `sync_xcode_project` (`src/index.ts`
lines 656–678): scan `PBXGroup` entries in table order, skip comment keys,
and pick the first group with a non-empty children list at least one of
whose children is a `.swift`/`.m`/`.mm` file reference. -/
def findGroupWithSources (pbx : PBX) : Option String :=
  (pbx.groups.find? (fun e =>
    !e.comment && e.val.children.length > 0 &&
      e.val.children.any (childIsSourceFile pbx))).map (·.key)

/-- Where the add branch sends the new file (`src/index.ts` lines 680–707):
which external helper it invokes, and — for the source and header
helpers — with which group argument. -/
inductive GroupTarget
  | existing (key : String)
  | created (name : String)
  deriving DecidableEq, Repr

/-- The helper invocation the add branch performs. -/
inductive AddAction
  | addSourceFile (filePath : String) (group : GroupTarget)
  | addHeaderFile (filePath : String) (group : GroupTarget)
  | addFramework (filePath : String)
  | addResourceFile (filePath : String)
  deriving DecidableEq, Repr

/-- The dispatch of the add branch (`src/index.ts` lines 653–707): classify the
extension, locate a group via `findGroupWithSources`, and invoke the
matching external helper; source and header files fall back to a freshly
created `Sources` / `Headers` group when no group qualifies, while
framework and resource files are added with no group argument at all. -/
def addDispatch (pbx : PBX) (filePath : String) : AddAction :=
  let ext := extOf filePath
  let groupName := findGroupWithSources pbx
  if ext = "swift" ∨ ext = "m" ∨ ext = "mm" ∨ ext = "cpp" ∨ ext = "c" then
    match groupName with
    | some g => AddAction.addSourceFile filePath (GroupTarget.existing g)
    | none => AddAction.addSourceFile filePath (GroupTarget.created "Sources")
  else if ext = "h" ∨ ext = "hpp" then
    match groupName with
    | some g => AddAction.addHeaderFile filePath (GroupTarget.existing g)
    | none => AddAction.addHeaderFile filePath (GroupTarget.created "Headers")
  else if ext = "framework" ∨ ext = "a" ∨ ext = "dylib" then
    AddAction.addFramework filePath
  else
    AddAction.addResourceFile filePath

/-- The build-phase roles (spec §3). -/
inductive Role
  | Sources
  | Resources
  | Frameworks
  deriving DecidableEq, Repr

/-- Modelled from the spec: the build-membership effect of the external
`xcode` package helpers `addSourceFile` / `addHeaderFile` / `addFramework`
/ `addResourceFile` (declared in the file src/xcode.d.ts of the repository, which
is not in the snapshot).  Per spec §4.5 step 3, the source, resource and
framework helpers each create a BuildMembership for the new FileRecord and
append it to the members of the phase named here, while the header helper
creates none. -/
def helperMembershipPhase : AddAction → Option Role
  | AddAction.addSourceFile _ _ => some Role.Sources
  | AddAction.addHeaderFile _ _ => none
  | AddAction.addFramework _ => some Role.Frameworks
  | AddAction.addResourceFile _ => some Role.Resources

/-- Stated from the words of the spec (§4.4 / claim C2), for comparison with
`findFileRef`: condition of pass `i` (1–4) of the four-pass matcher. -/
def specPassMatches (i : Nat) (normalizedPath refPath : String) : Bool :=
  let fileName := basename normalizedPath
  match i with
  | 1 => refPath = normalizedPath
  | 2 => refPath = fileName
  | 3 => strEndsWith refPath ("/" ++ normalizedPath)
  | 4 => strEndsWith refPath ("/" ++ fileName) ||
         strEndsWith normalizedPath ("/" ++ refPath)
  | _ => false

/-- Stated from the words of the spec (§4.4 / claim C2): one pass scans every
file reference before the next pass is tried. -/
def findFileRefSpecPass (pbx : PBX) (normalizedPath : String) (i : Nat) :
    Option (Entry FileRef) :=
  pbx.fileRefs.find? (fun e =>
    !e.comment &&
      (match refDisplay e.val with
       | some raw => specPassMatches i normalizedPath (stripQuotes raw)
       | none => false))

/-- Stated from the words of the spec (§4.4 / claim C2), for comparison with
`findFileRef`: the four passes are tried in order, each against every file
reference, and the first pass that matches anything wins. -/
def findFileRefSpec (pbx : PBX) (normalizedPath : String) :
    Option (Entry FileRef) :=
  match findFileRefSpecPass pbx normalizedPath 1 with
  | some e => some e
  | none => match findFileRefSpecPass pbx normalizedPath 2 with
    | some e => some e
    | none => match findFileRefSpecPass pbx normalizedPath 3 with
      | some e => some e
      | none => findFileRefSpecPass pbx normalizedPath 4

/-- Stated from the words of the spec (§4.3 / claim C4), for comparison with
`findGroupWithSources`: the first group one of whose children is a
FileRecord of kind `source` (kind derived from the Path Classifier). -/
def childIsKindSource (pbx : PBX) (c : ChildRef) : Bool :=
  match lookupKey c.value pbx.fileRefs with
  | some fr =>
      (match fr.path with
       | some p =>
           if p = "" then false
           else classifyExt (extOf (stripQuotes p)) = Kind.source
       | none => false)
  | none => false

/-- Stated from the words of the spec (§4.3 / claim C4), for comparison with
`findGroupWithSources`. -/
def findGroupWithSourcesSpec (pbx : PBX) : Option String :=
  (pbx.groups.find? (fun e =>
    !e.comment && e.val.children.length > 0 &&
      e.val.children.any (childIsKindSource pbx))).map (·.key)

/-- `path.join(a, b)` for the simple relative components this tool joins. -/
def pathJoin (a b : String) : String :=
  a ++ "/" ++ b

/-- Remove the first character matching `p` (JS `replace` with a
non-global single-character regex). -/
def removeFirstChar (p : Char → Bool) : List Char → List Char
  | [] => []
  | c :: cs => if p c then cs else c :: removeFirstChar p cs

/-- `rnVersion.replace(/[\x5e~]/, "")` from the version-detection branch. -/
def stripVersionMarker (s : String) : String :=
  ⟨removeFirstChar (fun c => c = '^' ∨ c = '~') s.data⟩

/-- A structured tool-call result: the single text content block every
branch of `handleToolCall` returns.  Long informational prose (workflow
text, file listings, next-step hints) is elided to its leading words; the
error messages the claims classify are kept verbatim, except that the
single quotes the source puts around interpolated values are dropped. -/
inductive Content
  | text (s : String)
  deriving DecidableEq, Repr

/-- What `sync_xcode_project` persisted with `writeFileSync`. -/
inductive WrittenDoc
  | graph (pbxprojPath : String) (g : PBX)
      -- the serialization of exactly `g` (remove branch: the graph after
      -- the in-repository cascade, or the untouched graph on not-found)
  | afterAdd (pbxprojPath : String) (g : PBX) (action : AddAction)
      -- the serialization of `g` as mutated by the external add helper
      -- invocation `action` (the mutation itself lives in the `xcode`
      -- package, outside this repository)
  deriving DecidableEq, Repr

/-- A tool-call outcome: the returned content plus the write the call
performed, if any. -/
structure ToolOutcome where
  content : Content
  written : Option WrittenDoc
  deriving DecidableEq, Repr

/-- The effectful collaborators of `handleToolCall`, supplied as pure
oracles: a `.error` result models the collaborator throwing. -/
structure Env where
  existsFile : String → Bool
  readFile : String → Except String String
  readdir : String → Except String (List String)
  fetchDiff : String → String → Except String String
  parseProject : String → Except String PBX
  parsePackageJson : String → Except String (Option String)
  deriving Inhabited

/-- The `sync_xcode_project` branch (`src/index.ts` lines 584–909).  A
`.error` result is an exception escaping to the outer catch of
`handleToolCall`; results of the branch-local try/catch (lines 628–908)
are `.ok` contents.  Note that the remove branch falls through to the
`writeFileSync` call even on a not-found outcome, while the unknown
operation and the missing add target return before any write. -/
def syncOp (env : Env) (projectRoot operation filePath : String) :
    Except String ToolOutcome :=
  let iosPath := pathJoin projectRoot "ios"
  if env.existsFile iosPath = false then
    Except.ok ⟨Content.text ("Error: iOS directory not found at " ++ iosPath), none⟩
  else
    (env.readdir iosPath).bind (fun files =>
      match files.find? (fun f => strEndsWith f ".xcodeproj") with
      | none =>
          Except.ok ⟨Content.text ("Error: No .xcodeproj found in " ++ iosPath), none⟩
      | some xcodeProj =>
        let pbxprojPath := pathJoin (pathJoin iosPath xcodeProj) "project.pbxproj"
        if env.existsFile pbxprojPath = false then
          Except.ok ⟨Content.text ("Error: project.pbxproj not found at " ++ pbxprojPath), none⟩
        else
          Except.ok (match env.parseProject pbxprojPath with
            | Except.error e =>
                ⟨Content.text ("Error: " ++ e), none⟩
            | Except.ok project =>
                if operation = "add" then
                  let absoluteFilePath := pathJoin iosPath filePath
                  if env.existsFile absoluteFilePath = false then
                    ⟨Content.text ("Error: File does not exist: " ++ absoluteFilePath), none⟩
                  else
                    let action := addDispatch project filePath
                    ⟨Content.text "Xcode Project Updated",
                     some (WrittenDoc.afterAdd pbxprojPath project action)⟩
                else if operation = "remove" then
                  let r := removeOp project filePath
                  ⟨Content.text "Xcode Project Updated",
                   some (WrittenDoc.graph pbxprojPath r.2)⟩
                else
                  ⟨Content.text ("Error: Unknown operation " ++ operation ++
                     ". Use add or remove."), none⟩))

/-- The arguments object of a tool call; the source reads each field with
an unchecked `as` cast. -/
structure Args where
  projectPath : String
  operation : String
  filePath : String
  targetVersion : String
  fromVersion : String
  toVersion : String
  fileName : String
  files : List String
  deriving DecidableEq, Repr

/-- The switch of `handleToolCall` (`src/index.ts` lines 276–912): every
case returns a content value; a `.error` result models an exception thrown
inside the switch (the default case, or an effectful collaborator
throwing), which the enclosing try/catch of `handleToolCall` converts into
an error content. -/
def runSwitch (env : Env) (name : String) (a : Args) : Except String ToolOutcome :=
  if name = "get_upgrade_workflow" then
    Except.ok ⟨Content.text "React Native Upgrade Workflow", none⟩
  else if name = "get_current_rn_version" then
    let packageJsonPath := pathJoin a.projectPath "package.json"
    if env.existsFile packageJsonPath = false then
      Except.ok ⟨Content.text ("Error: package.json not found at " ++ packageJsonPath), none⟩
    else
      (env.readFile packageJsonPath).bind (fun txt =>
        (env.parsePackageJson txt).bind (fun rn? =>
          match rn? with
          | none =>
              Except.ok ⟨Content.text "Error: react-native not found in dependencies", none⟩
          | some v =>
              Except.ok ⟨Content.text ("Current React Native version: " ++
                stripVersionMarker v), none⟩))
  else if name = "get_target_version" then
    Except.ok ⟨Content.text ("Target version confirmed: " ++ a.targetVersion), none⟩
  else if name = "get_upgrade_diff_files" then
    Except.ok (match env.fetchDiff a.fromVersion a.toVersion with
      | Except.ok _ => ⟨Content.text "Found files changed in upgrade", none⟩
      | Except.error e => ⟨Content.text ("Error fetching diff: " ++ e), none⟩)
  else if name = "get_file_specific_diff" then
    Except.ok (match env.fetchDiff a.fromVersion a.toVersion with
      | Except.ok _ => ⟨Content.text ("Diff for " ++ a.fileName), none⟩
      | Except.error e => ⟨Content.text ("Error fetching file diff: " ++ e), none⟩)
  else if name = "analyze_file_type" then
    Except.ok ⟨Content.text ("File Analysis: " ++ a.fileName), none⟩
  else if name = "create_upgrade_todo_list" then
    Except.ok ⟨Content.text "React Native Upgrade Todo List", none⟩
  else if name = "sync_xcode_project" then
    syncOp env a.projectPath a.operation a.filePath
  else
    Except.error ("Unknown tool: " ++ name)

/-- The tool-handling entry point (`src/index.ts` lines 270–927): the
missing-arguments throw sits OUTSIDE the try/catch and escapes to the
caller, while every exception raised inside the switch is caught and
turned into an error content. -/
def handleToolCall (env : Env) (name : String) (args : Option Args) :
    Except String ToolOutcome :=
  match args with
  | none => Except.error "Missing arguments"
  | some a =>
      Except.ok (match runSwitch env name a with
        | Except.ok out => out
        | Except.error e => ⟨Content.text ("Error: " ++ e), none⟩)

/-!
Spec-modelled serializer (claim C8).  `parse` and `serialize` are the
`parseSync` / `writeSync` of the external `xcode` package; the repository
holds only their declarations (the file src/xcode.d.ts, absent from the
snapshot) and call sites.  The graph of spec §3 and a deterministic
line-based rendering of it are therefore modelled from the words of the
spec; manifest text is modelled as its list of lines.
-/

/-- Modelled from the spec (§3): the kind-tag distinguishing whether a
Group child id refers to a FileRecord or a nested Group. -/
inductive Tag
  | fileRecord
  | group
  deriving DecidableEq, Repr

/-- Modelled from the spec (§3): a FileRecord. -/
structure SFileRecord where
  id : String
  path : String
  displayName : String
  kind : Kind
  deriving DecidableEq, Repr

/-- Modelled from the spec (§3): a BuildMembership. -/
structure SBuildMembership where
  id : String
  fileRecordId : String
  deriving DecidableEq, Repr

/-- Modelled from the spec (§3): one child of a Group. -/
structure SChild where
  id : String
  tag : Tag
  deriving DecidableEq, Repr

/-- Modelled from the spec (§3): a Group. -/
structure SGroup where
  id : String
  displayName : String
  children : List SChild
  deriving DecidableEq, Repr

/-- Modelled from the spec (§3): a BuildPhase. -/
structure SBuildPhase where
  id : String
  role : Role
  members : List String
  deriving DecidableEq, Repr

/-- Modelled from the spec (§3): the manifest graph — the four record
tables in their stable iteration order. -/
structure SGraph where
  files : List SFileRecord
  memberships : List SBuildMembership
  groups : List SGroup
  phases : List SBuildPhase
  deriving DecidableEq, Repr

/-- Rendering of a kind as a manifest token. -/
def kindStr : Kind → String
  | Kind.source => "source"
  | Kind.header => "header"
  | Kind.frameworkOrLib => "frameworkOrLib"
  | Kind.resource => "resource"

/-- Inverse of `kindStr`. -/
def kindOfString (s : String) : Option Kind :=
  if s = "source" then some Kind.source
  else if s = "header" then some Kind.header
  else if s = "frameworkOrLib" then some Kind.frameworkOrLib
  else if s = "resource" then some Kind.resource
  else none

/-- Rendering of a child kind-tag as a manifest token. -/
def tagStr : Tag → String
  | Tag.fileRecord => "fileRecord"
  | Tag.group => "group"

/-- Inverse of `tagStr`. -/
def tagOfString (s : String) : Option Tag :=
  if s = "fileRecord" then some Tag.fileRecord
  else if s = "group" then some Tag.group
  else none

/-- Rendering of a build-phase role as a manifest token. -/
def roleStr : Role → String
  | Role.Sources => "Sources"
  | Role.Resources => "Resources"
  | Role.Frameworks => "Frameworks"

/-- Inverse of `roleStr`. -/
def roleOfString (s : String) : Option Role :=
  if s = "Sources" then some Role.Sources
  else if s = "Resources" then some Role.Resources
  else if s = "Frameworks" then some Role.Frameworks
  else none

/-- Modelled from the spec (§4.6): the FileRecord table section, one
field per line, closed by a terminator line. -/
def serializeFiles : List SFileRecord → List String
  | [] => ["endfiles"]
  | f :: fs => "item" :: f.id :: f.path :: f.displayName :: kindStr f.kind :: serializeFiles fs

/-- Modelled from the spec (§4.1): parse the FileRecord section, returning
the records and the unconsumed remainder. -/
def parseFiles : List String → Option (List SFileRecord × List String)
  | "endfiles" :: rest => some ([], rest)
  | "item" :: i :: p :: d :: k :: rest =>
      match kindOfString k with
      | some kd =>
          match parseFiles rest with
          | some (fs, r) => some (⟨i, p, d, kd⟩ :: fs, r)
          | none => none
      | none => none
  | _ => none

/-- Modelled from the spec (§4.6): the BuildMembership table section. -/
def serializeMemberships : List SBuildMembership → List String
  | [] => ["endmemberships"]
  | m :: ms => "item" :: m.id :: m.fileRecordId :: serializeMemberships ms

/-- Modelled from the spec (§4.1): parse the BuildMembership section. -/
def parseMemberships : List String → Option (List SBuildMembership × List String)
  | "endmemberships" :: rest => some ([], rest)
  | "item" :: i :: fr :: rest =>
      match parseMemberships rest with
      | some (ms, r) => some (⟨i, fr⟩ :: ms, r)
      | none => none
  | _ => none

/-- Modelled from the spec (§4.6): the children list of one Group. -/
def serializeChildren : List SChild → List String
  | [] => ["endchildren"]
  | c :: cs => "child" :: tagStr c.tag :: c.id :: serializeChildren cs

/-- Modelled from the spec (§4.1): parse one children list. -/
def parseChildren : List String → Option (List SChild × List String)
  | "endchildren" :: rest => some ([], rest)
  | "child" :: t :: i :: rest =>
      match tagOfString t with
      | some tg =>
          match parseChildren rest with
          | some (cs, r) => some (⟨i, tg⟩ :: cs, r)
          | none => none
      | none => none
  | _ => none

/-- Modelled from the spec (§4.6): the Group table section. -/
def serializeGroups : List SGroup → List String
  | [] => ["endgroups"]
  | g :: gs => "item" :: g.id :: g.displayName ::
      (serializeChildren g.children ++ serializeGroups gs)

/-- Modelled from the spec (§4.6): the members list of one BuildPhase. -/
def serializeMembers : List String → List String
  | [] => ["endmembers"]
  | m :: ms => "member" :: m :: serializeMembers ms

/-- Modelled from the spec (§4.1): parse one members list. -/
def parseMembers : List String → Option (List String × List String)
  | "endmembers" :: rest => some ([], rest)
  | "member" :: m :: rest =>
      match parseMembers rest with
      | some (ms, r) => some (m :: ms, r)
      | none => none
  | _ => none

/-- Modelled from the spec (§4.6): the BuildPhase table section. -/
def serializePhases : List SBuildPhase → List String
  | [] => ["endphases"]
  | p :: ps => "item" :: p.id :: roleStr p.role ::
      (serializeMembers p.members ++ serializePhases ps)

/-- Modelled from the spec (§4.1): parse the Group section. -/
def parseGroups : List String → Option (List SGroup × List String)
  | "endgroups" :: rest => some ([], rest)
  | "item" :: i :: d :: rest =>
      match h : parseChildren rest with
      | some (cs, r) =>
          match parseGroups r with
          | some (gs, r2) => some (⟨i, d, cs⟩ :: gs, r2)
          | none => none
      | none => none
  | _ => none
  termination_by l => l.length
  decreasing_by
    have key : ∀ l cs r, parseChildren l = some (cs, r) → r.length ≤ l.length := by
      intro l
      induction l using parseChildren.induct with
      | _ =>
        intro cs r h
        simp_all [parseChildren] <;> omega
    have := key rest cs r h
    simp only [List.length_cons]
    omega

/-- Modelled from the spec (§4.1): parse the BuildPhase section. -/
def parsePhases : List String → Option (List SBuildPhase × List String)
  | "endphases" :: rest => some ([], rest)
  | "item" :: i :: ro :: rest =>
      match roleOfString ro with
      | some role =>
          match h : parseMembers rest with
          | some (ms, r) =>
              match parsePhases r with
              | some (ps, r2) => some (⟨i, role, ms⟩ :: ps, r2)
              | none => none
          | none => none
      | none => none
  | _ => none
  termination_by l => l.length
  decreasing_by
    have key : ∀ l ms r, parseMembers l = some (ms, r) → r.length ≤ l.length := by
      intro l
      induction l using parseMembers.induct with
      | _ =>
        intro ms r h
        simp_all [parseMembers] <;> omega
    have := key rest ms r h
    simp only [List.length_cons]
    omega

/-- Modelled from the spec (§4.6): `serialize`, the deterministic graph →
text rendering (text as its list of lines). -/
def serialize (g : SGraph) : List String :=
  serializeFiles g.files ++ serializeMemberships g.memberships ++
    serializeGroups g.groups ++ serializePhases g.phases

/-- Modelled from the spec (§4.1): `parse`, total on any text produced by
the Serializer; `none` models a `StructureError`. -/
def parse (ls : List String) : Option SGraph :=
  match parseFiles ls with
  | some (fs, r1) =>
      match parseMemberships r1 with
      | some (ms, r2) =>
          match parseGroups r2 with
          | some (gs, r3) =>
              match parsePhases r3 with
              | some (ps, r4) => if r4 = [] then some ⟨fs, ms, gs, ps⟩ else none
              | none => none
          | none => none
      | none => none
  | none => none

/-!  Concrete graphs and environments used by counterexamples and
witnesses. -/

/-- Two file references sharing a basename: the first matches the
caller-supplied path only by basename, the second matches it exactly. -/
def exMatcher : PBX :=
  { fileRefs := [⟨"K1", false, ⟨some "Bar.swift", none⟩⟩,
                 ⟨"K2", false, ⟨some "App/Bar.swift", none⟩⟩]
    buildFiles := []
    groups := []
    sourcesPhases := []
    resourcesPhases := []
    frameworksPhases := [] }

/-- A malformed graph in which two build files reference the same file
reference. -/
def exTwoMemberships : PBX :=
  { fileRefs := [⟨"F", false, ⟨some "A.txt", none⟩⟩]
    buildFiles := [⟨"B1", false, ⟨"F"⟩⟩, ⟨"B2", false, ⟨"F"⟩⟩]
    groups := []
    sourcesPhases := []
    resourcesPhases := [⟨"P", false, ⟨[⟨"B1"⟩, ⟨"B2"⟩]⟩⟩]
    frameworksPhases := [] }

/-- A well-formed one-file graph: one file reference, one build file, one
group holding it, one sources phase holding the membership. -/
def exSimple : PBX :=
  { fileRefs := [⟨"F", false, ⟨some "A.swift", none⟩⟩]
    buildFiles := [⟨"B", false, ⟨"F"⟩⟩]
    groups := [⟨"G", false, ⟨[⟨"F"⟩, ⟨"X"⟩]⟩⟩]
    sourcesPhases := [⟨"P", false, ⟨[⟨"B"⟩, ⟨"C"⟩]⟩⟩]
    resourcesPhases := []
    frameworksPhases := [] }

/-- A first group holding only a C++ source (kind `source` for the
classifier, but not a `.swift`/`.m`/`.mm` file) followed by a group
holding a Swift source. -/
def exGroups : PBX :=
  { fileRefs := [⟨"F1", false, ⟨some "a.cpp", none⟩⟩,
                 ⟨"F2", false, ⟨some "b.swift", none⟩⟩]
    buildFiles := []
    groups := [⟨"G1", false, ⟨[⟨"F1"⟩]⟩⟩, ⟨"G2", false, ⟨[⟨"F2"⟩]⟩⟩]
    sourcesPhases := []
    resourcesPhases := []
    frameworksPhases := [] }

/-- An environment whose every file exists except the one add target the
witnesses use, whose ios directory lists one Xcode project, and whose
manifest parses to `exSimple`. -/
def envW : Env :=
  { existsFile := fun p => p ≠ "root/ios/Missing.swift"
    readFile := fun _ => Except.ok ""
    readdir := fun _ => Except.ok ["App.xcodeproj"]
    fetchDiff := fun _ _ => Except.ok ""
    parseProject := fun _ => Except.ok exSimple
    parsePackageJson := fun _ => Except.ok none }

/-- A small spec-graph witness for the round-trip theorem. -/
def exGraph : SGraph :=
  { files := [⟨"F", "App/Main.swift", "Main.swift", Kind.source⟩]
    memberships := [⟨"B", "F"⟩]
    groups := [⟨"G", "App", [⟨"F", Tag.fileRecord⟩, ⟨"G2", Tag.group⟩]⟩,
               ⟨"G2", "Sub", []⟩]
    phases := [⟨"P", Role.Sources, ["B"]⟩] }

/-! Shared helper lemmas. -/

/-- Every kind is one of the four constructors. -/
theorem kind_cases (k : Kind) :
    k = Kind.source ∨ k = Kind.header ∨ k = Kind.frameworkOrLib ∨
      k = Kind.resource := by
  cases k <;> simp

/-- A list of length at most one has at most one member. -/
theorem mem_eq_of_length_le_one {α : Type} {l : List α} (h : l.length ≤ 1)
    {a b : α} (ha : a ∈ l) (hb : b ∈ l) : a = b := by
  match l with
  | [] => cases ha
  | [x] => simp_all
  | x :: y :: t => simp at h

/-- Characterisation of the classifier on each extension set. -/
theorem classifyExt_eq_iff (e : String) :
    (classifyExt e = Kind.source ↔
      (e = "swift" ∨ e = "m" ∨ e = "mm" ∨ e = "cpp" ∨ e = "c")) ∧
    (classifyExt e = Kind.header ↔ (e = "h" ∨ e = "hpp")) ∧
    (classifyExt e = Kind.frameworkOrLib ↔
      (e = "framework" ∨ e = "a" ∨ e = "dylib")) := by
  refine ⟨Iff.intro (fun h => ?_) (fun h => ?_),
    Iff.intro (fun h => ?_) (fun h => ?_), Iff.intro (fun h => ?_) (fun h => ?_)⟩
  · unfold classifyExt at h
    split_ifs at h with h1 h2 h3 <;> simp_all
  · unfold classifyExt
    rw [if_pos h]
  · unfold classifyExt at h
    split_ifs at h with h1 h2 h3 <;> simp_all
  · rcases h with rfl | rfl <;> decide
  · unfold classifyExt at h
    split_ifs at h with h1 h2 h3 <;> simp_all
  · rcases h with rfl | rfl | rfl <;> decide

/-- The single disjunction the remove scan evaluates on one record is
exactly "some one of the four pass conditions of spec §4.4 holds". -/
theorem removeMatches_iff_passes (np r : String) :
    removeMatches np r = true ↔
      ∃ i, 1 ≤ i ∧ i ≤ 4 ∧ specPassMatches i np r = true := by
  unfold removeMatches specPassMatches
  simp only [decide_eq_true_eq, Bool.or_eq_true]
  constructor
  · rintro (h | h | h | h | h)
    · exact ⟨1, by omega, by omega, by simp [h]⟩
    · exact ⟨2, by omega, by omega, by simp [h]⟩
    · exact ⟨3, by omega, by omega, by simp [h]⟩
    · exact ⟨4, by omega, by omega, by simp [h]⟩
    · exact ⟨4, by omega, by omega, by simp [h]⟩
  · rintro ⟨i, h1, h4, hp⟩
    interval_cases i <;> simp_all <;> tauto

/-- Acceptance of one table entry by the remove scan, unfolded to the
spec vocabulary: non-comment, truthy display path, and some pass
condition on the quote-stripped display path. -/
theorem entryMatchesRemove_iff (np : String) (x : Entry FileRef) :
    entryMatchesRemove np x = true ↔
      (x.comment = false ∧ ∃ raw, refDisplay x.val = some raw ∧
        ∃ i, 1 ≤ i ∧ i ≤ 4 ∧ specPassMatches i np (stripQuotes raw) = true) := by
  unfold entryMatchesRemove
  cases hd : refDisplay x.val <;>
    simp [hd, removeMatches_iff_passes, Bool.and_eq_true, Bool.not_eq_true']

/-! Claim theorems. -/

set_option maxHeartbeats 1000000 in
/-- C5: the Path Classifier is a total function on lowercased file
extensions: swift, m, mm, cpp, c map to source; h, hpp to header;
framework, a, dylib to framework-or-library; every other extension maps
to resource, and every extension yields exactly one of the four kinds. -/
theorem classifier_totality (e : String) :
    (classifyExt e = Kind.source ↔
      e ∈ (["swift", "m", "mm", "cpp", "c"] : List String)) ∧
    (classifyExt e = Kind.header ↔ e ∈ (["h", "hpp"] : List String)) ∧
    (classifyExt e = Kind.frameworkOrLib ↔
      e ∈ (["framework", "a", "dylib"] : List String)) ∧
    (classifyExt e = Kind.resource ↔
      e ∉ (["swift", "m", "mm", "cpp", "c", "h", "hpp",
            "framework", "a", "dylib"] : List String)) ∧
    (classifyExt e = Kind.source ∨ classifyExt e = Kind.header ∨
      classifyExt e = Kind.frameworkOrLib ∨ classifyExt e = Kind.resource) := by
  obtain ⟨hs, hh, hf⟩ := classifyExt_eq_iff e
  simp only [List.mem_cons, List.not_mem_nil, or_false]
  refine ⟨hs, hh, hf, ⟨fun hres hmem => ?_, fun hnot => ?_⟩, ?_⟩
  · rcases hmem with rfl | rfl | rfl | rfl | rfl | rfl | rfl | rfl | rfl | rfl <;>
      exact absurd hres (by decide)
  · rcases kind_cases (classifyExt e) with hcl | hcl | hcl | hcl
    · exact absurd (hs.mp hcl) (by tauto)
    · exact absurd (hh.mp hcl) (by tauto)
    · exact absurd (hf.mp hcl) (by tauto)
    · exact hcl
  · exact kind_cases (classifyExt e)

/-- C2 counterexample: the matcher is not pass-major.  On a table whose
first record matches the caller path only by basename and whose second
record matches it exactly, the code picks the first record, while the
four sequential passes of the claim would pick the exact match in
pass 1. -/
theorem remove_matcher_counterexample :
    (findFileRef exMatcher "App/Bar.swift").map (fun e => e.key) = some "K1" ∧
    (findFileRefSpec exMatcher "App/Bar.swift").map (fun e => e.key) = some "K2" ∧
    findFileRef exMatcher "App/Bar.swift" ≠
      findFileRefSpec exMatcher "App/Bar.swift" := by
  refine ⟨by decide, by decide, by decide⟩

/-- C2 amended: the matcher normalises the caller path by stripping a
single leading `ios/` component, then performs ONE scan over the
FileRecord table in iteration order, accepting the first non-comment
record with a truthy display path whose quote-stripped value satisfies
any of the four pass conditions; there is no pass-major ordering, so a
record matching a later condition earlier in the table beats a record
matching an earlier condition later in the table. -/
theorem remove_matcher_amended (pbx : PBX) (fp : String) (e : Entry FileRef) :
    findFileRef pbx (normalizeRemovePath fp) = some e ↔
      ((e.comment = false ∧ ∃ raw, refDisplay e.val = some raw ∧
          ∃ i, 1 ≤ i ∧ i ≤ 4 ∧
            specPassMatches i (normalizeRemovePath fp) (stripQuotes raw) = true) ∧
        ∃ pre post, pbx.fileRefs = pre ++ e :: post ∧
          ∀ x ∈ pre, entryMatchesRemove (normalizeRemovePath fp) x = false) := by
  rw [findFileRef, List.find?_eq_some]
  constructor
  · rintro ⟨hacc, pre, post, hsplit, hpre⟩
    exact ⟨(entryMatchesRemove_iff _ _).mp hacc, pre, post, hsplit,
      fun x hx => by simpa using hpre x hx⟩
  · rintro ⟨hacc, pre, post, hsplit, hpre⟩
    exact ⟨(entryMatchesRemove_iff _ _).mpr hacc, pre, post, hsplit,
      fun x hx => by simpa using hpre x hx⟩

/-- Witness for `remove_matcher_amended`: instantiated on the concrete
two-record table, the backwards direction yields the concrete match. -/
theorem remove_matcher_amended_witness :
    findFileRef exMatcher (normalizeRemovePath "App/Bar.swift") =
      some ⟨"K1", false, ⟨some "Bar.swift", none⟩⟩ :=
  (remove_matcher_amended exMatcher "App/Bar.swift" _).mpr
    ⟨⟨rfl, "Bar.swift", by decide, 2, by decide, by decide, by decide⟩,
     [], [⟨"K2", false, ⟨some "App/Bar.swift", none⟩⟩], by decide, by decide⟩

/-- The dispatch of the add branch, reorganised by classifier kind: the
raw extension tests of lines 680–707 agree with the classifier sets. -/
theorem addDispatch_eq (pbx : PBX) (p : String) :
    addDispatch pbx p =
      match classifyExt (extOf p), findGroupWithSources pbx with
      | Kind.source, some g => AddAction.addSourceFile p (GroupTarget.existing g)
      | Kind.source, none => AddAction.addSourceFile p (GroupTarget.created "Sources")
      | Kind.header, some g => AddAction.addHeaderFile p (GroupTarget.existing g)
      | Kind.header, none => AddAction.addHeaderFile p (GroupTarget.created "Headers")
      | Kind.frameworkOrLib, _ => AddAction.addFramework p
      | Kind.resource, _ => AddAction.addResourceFile p := by
  simp only [addDispatch, classifyExt]
  split_ifs with h1 h2 h3 <;> cases hg : findGroupWithSources pbx <;> simp

/-- Acceptance of one group entry by the locator scan, as a proposition. -/
theorem groupAccept_iff (pbx : PBX) (x : Entry Group) :
    (!x.comment && decide (x.val.children.length > 0) &&
        x.val.children.any (childIsSourceFile pbx)) = true ↔
      (x.comment = false ∧ x.val.children ≠ [] ∧
        ∃ c ∈ x.val.children, childIsSourceFile pbx c = true) := by
  simp [Bool.and_eq_true, Bool.not_eq_true', List.any_eq_true,
    List.length_pos, and_assoc]

/-- C4 counterexample: a first group holding only a C++ file — of kind
`source` for the classifier — is skipped by the locator, which tests for
`.swift`/`.m`/`.mm` extensions rather than for kind `source`, so the
later Swift-holding group is selected instead of the first
source-kind-holding group the claim requires. -/
theorem group_locator_counterexample :
    classifyExt (extOf "a.cpp") = Kind.source ∧
    findGroupWithSources exGroups = some "G2" ∧
    findGroupWithSourcesSpec exGroups = some "G1" ∧
    findGroupWithSources exGroups ≠ findGroupWithSourcesSpec exGroups := by
  refine ⟨by decide, by decide, by decide, by decide⟩

/-- C4 amended: the Group Locator scans Groups in table order and selects
the first non-comment Group with a non-empty children list at least one
of whose children resolves to a FileRecord whose truthy path, quotes
stripped, ends in `.swift`, `.m` or `.mm` (not: any FileRecord of kind
source — C and C++ sources do not qualify); when no Group qualifies, a
new Group named `Sources` (for source kind) or `Headers` (for header
kind) is created, while framework-or-library and resource files are
handed to their helpers with no group argument at all. -/
theorem group_locator_amended (pbx : PBX) (p : String) :
    (∀ k, findGroupWithSources pbx = some k ↔
      ∃ pre g post, pbx.groups = pre ++ g :: post ∧ g.key = k ∧
        (g.comment = false ∧ g.val.children ≠ [] ∧
          ∃ c ∈ g.val.children, childIsSourceFile pbx c = true) ∧
        ∀ x ∈ pre, ¬(x.comment = false ∧ x.val.children ≠ [] ∧
          ∃ c ∈ x.val.children, childIsSourceFile pbx c = true)) ∧
    (classifyExt (extOf p) = Kind.source →
      addDispatch pbx p = AddAction.addSourceFile p
        (match findGroupWithSources pbx with
         | some g => GroupTarget.existing g
         | none => GroupTarget.created "Sources")) ∧
    (classifyExt (extOf p) = Kind.header →
      addDispatch pbx p = AddAction.addHeaderFile p
        (match findGroupWithSources pbx with
         | some g => GroupTarget.existing g
         | none => GroupTarget.created "Headers")) ∧
    (classifyExt (extOf p) = Kind.frameworkOrLib →
      addDispatch pbx p = AddAction.addFramework p) ∧
    (classifyExt (extOf p) = Kind.resource →
      addDispatch pbx p = AddAction.addResourceFile p) := by
  refine ⟨fun k => ?_, fun h => ?_, fun h => ?_, fun h => ?_, fun h => ?_⟩
  · unfold findGroupWithSources
    rw [Option.map_eq_some']
    constructor
    · rintro ⟨g, hg, rfl⟩
      rw [List.find?_eq_some] at hg
      obtain ⟨hacc, pre, post, hsplit, hpre⟩ := hg
      refine ⟨pre, g, post, hsplit, rfl, (groupAccept_iff pbx g).mp hacc, ?_⟩
      intro x hx hbad
      have := hpre x hx
      rw [Bool.not_eq_eq_eq_not, Bool.not_true] at this
      exact absurd ((groupAccept_iff pbx x).mpr hbad) (by simp [this])
    · rintro ⟨pre, g, post, hsplit, rfl, hgood, hpre⟩
      refine ⟨g, ?_, rfl⟩
      rw [List.find?_eq_some]
      refine ⟨(groupAccept_iff pbx g).mpr hgood, pre, post, hsplit, ?_⟩
      intro x hx
      have hna : ¬((!x.comment && decide (x.val.children.length > 0) &&
          x.val.children.any (childIsSourceFile pbx)) = true) :=
        fun hacc => hpre x hx ((groupAccept_iff pbx x).mp hacc)
      cases hb : (!x.comment && decide (x.val.children.length > 0) &&
          x.val.children.any (childIsSourceFile pbx)) with
      | true => exact absurd hb hna
      | false => rfl
  · rw [addDispatch_eq, h]
    cases hg : findGroupWithSources pbx <;> rfl
  · rw [addDispatch_eq, h]
    cases hg : findGroupWithSources pbx <;> rfl
  · rw [addDispatch_eq, h]
  · rw [addDispatch_eq, h]

/-- Witness for `group_locator_amended`: on the concrete two-group table
the add of a Swift file targets the Swift-holding group. -/
theorem group_locator_amended_witness :
    classifyExt (extOf "New.swift") = Kind.source ∧
    addDispatch exGroups "New.swift" =
      AddAction.addSourceFile "New.swift" (GroupTarget.existing "G2") :=
  ⟨by decide,
   ((group_locator_amended exGroups "New.swift").2.1 (by decide)).trans (by decide)⟩

/-- C6: for every add, the helper the dispatch invokes creates a
BuildMembership in the phase matching the classified kind — Sources for
source, Frameworks for framework-or-library, Resources for resource —
and no BuildMembership at all for header files (membership creation
itself is the spec-modelled behaviour of the external helpers, recorded
by `helperMembershipPhase`). -/
theorem add_membership_phases (pbx : PBX) (p : String) :
    (classifyExt (extOf p) = Kind.source →
      helperMembershipPhase (addDispatch pbx p) = some Role.Sources) ∧
    (classifyExt (extOf p) = Kind.header →
      helperMembershipPhase (addDispatch pbx p) = none) ∧
    (classifyExt (extOf p) = Kind.frameworkOrLib →
      helperMembershipPhase (addDispatch pbx p) = some Role.Frameworks) ∧
    (classifyExt (extOf p) = Kind.resource →
      helperMembershipPhase (addDispatch pbx p) = some Role.Resources) := by
  refine ⟨fun h => ?_, fun h => ?_, fun h => ?_, fun h => ?_⟩ <;>
    rw [addDispatch_eq, h] <;> cases hg : findGroupWithSources pbx <;> rfl

/-- Witness for `add_membership_phases`: a Swift file gets a Sources
membership, a header gets none. -/
theorem add_membership_phases_witness :
    (classifyExt (extOf "New.swift") = Kind.source ∧
      helperMembershipPhase (addDispatch exGroups "New.swift") = some Role.Sources) ∧
    (classifyExt (extOf "New.h") = Kind.header ∧
      helperMembershipPhase (addDispatch exGroups "New.h") = none) :=
  ⟨⟨by decide, (add_membership_phases exGroups "New.swift").1 (by decide)⟩,
   ⟨by decide, (add_membership_phases exGroups "New.h").2.1 (by decide)⟩⟩

/-- After scrubbing a phase section with a concrete build-file UUID, no
non-comment phase of the section retains that UUID in its files. -/
theorem scrubPhaseSection_value_ne (u : String) (l : List (Entry Phase)) :
    ∀ ph ∈ scrubPhaseSection (some u) l, ph.comment = false →
      ∀ f ∈ ph.val.files, f.value ≠ u := by
  intro ph hm hc f hf
  unfold scrubPhaseSection at hm
  rw [List.mem_map] at hm
  obtain ⟨p0, hp0, rfl⟩ := hm
  by_cases hcm : p0.comment = true
  · rw [if_pos hcm] at hc
    rw [hc] at hcm
    cases hcm
  · rw [if_neg hcm] at hf
    simp only [List.mem_filter, decide_eq_true_eq] at hf
    exact hf.2

/-- C1 counterexample: on a malformed graph in which two build files
reference the same file reference, a successful remove deletes only the
first of them, so a BuildMembership referencing the removed FileRecord
survives the cascade. -/
theorem remove_cascade_counterexample :
    (removeOp exTwoMemberships "A.txt").1 = RemoveOutcome.removed "A.txt" ∧
    (removeOp exTwoMemberships "A.txt").2.fileRefs = [] ∧
    (removeOp exTwoMemberships "A.txt").2.buildFiles =
      [⟨"B2", false, ⟨"F"⟩⟩] := by
  refine ⟨by decide, by decide, by decide⟩

/-- C1 amended: after a successful remove, the deleted FileRecord id is
gone from the file-reference table and from the children of every
non-comment Group, and the deleted BuildMembership id (when one was
found) is gone from the build-file table and from the files of every
non-comment BuildPhase of all three sections (the defensive full scans);
but only the FIRST table-order BuildMembership referencing the file is
deleted, so freedom of the membership table from the removed FileRecord
id additionally requires that at most one membership referenced it. -/
theorem remove_cascade_amended (pbx : PBX) (fp : String) (e : Entry FileRef)
    (hfind : findFileRef pbx (normalizeRemovePath fp) = some e) :
    (∀ fr ∈ (removeOp pbx fp).2.fileRefs, fr.key ≠ e.key) ∧
    ((pbx.buildFiles.filter
        (fun bf => !bf.comment && bf.val.fileRef = e.key)).length ≤ 1 →
      ∀ bf ∈ (removeOp pbx fp).2.buildFiles, bf.comment = false →
        bf.val.fileRef ≠ e.key) ∧
    (∀ g ∈ (removeOp pbx fp).2.groups, g.comment = false →
      ∀ c ∈ g.val.children, c.value ≠ e.key) ∧
    (∀ u, findBuildFileKey pbx e.key = some u →
      (∀ bf ∈ (removeOp pbx fp).2.buildFiles, bf.key ≠ u) ∧
      (∀ ph ∈ (removeOp pbx fp).2.sourcesPhases ++
          (removeOp pbx fp).2.resourcesPhases ++
          (removeOp pbx fp).2.frameworksPhases,
        ph.comment = false → ∀ f ∈ ph.val.files, f.value ≠ u)) := by
  have hop : (removeOp pbx fp).2 =
      removeCascade pbx e.key (findBuildFileKey pbx e.key) := by
    simp only [removeOp, hfind]
  rw [hop]
  refine ⟨?_, ?_, ?_, ?_⟩
  · intro fr hm
    unfold removeCascade at hm
    simp only [List.mem_filter, decide_eq_true_eq] at hm
    exact hm.2.1
  · intro huniq bf hm hc href
    unfold removeCascade at hm
    cases hbk : findBuildFileKey pbx e.key with
    | none =>
        rw [hbk] at hm
        unfold findBuildFileKey at hbk
        rw [Option.map_eq_none'] at hbk
        rw [List.find?_eq_none] at hbk
        have := hbk bf hm
        simp only [Bool.and_eq_true, Bool.not_eq_true', decide_eq_true_eq] at this
        exact this ⟨hc, href⟩
    | some u =>
        rw [hbk] at hm
        simp only [List.mem_filter, decide_eq_true_eq] at hm
        obtain ⟨hmem, hku, _⟩ := hm
        unfold findBuildFileKey at hbk
        rw [Option.map_eq_some'] at hbk
        obtain ⟨b0, hb0, hb0k⟩ := hbk
        have hb0mem := List.mem_of_find?_eq_some hb0
        have hb0p := List.find?_some hb0
        simp only [Bool.and_eq_true, Bool.not_eq_true', decide_eq_true_eq] at hb0p
        have hbfmem : bf ∈ pbx.buildFiles.filter
            (fun bf => !bf.comment && bf.val.fileRef = e.key) := by
          rw [List.mem_filter]
          exact ⟨hmem, by simp [hc, href]⟩
        have hb0mem2 : b0 ∈ pbx.buildFiles.filter
            (fun bf => !bf.comment && bf.val.fileRef = e.key) := by
          rw [List.mem_filter]
          exact ⟨hb0mem, by simp [hb0p.1, hb0p.2]⟩
        have : bf = b0 := mem_eq_of_length_le_one huniq hbfmem hb0mem2
        rw [this, hb0k] at hku
        exact hku rfl
  · intro g hm hc c hcm
    unfold removeCascade at hm
    rw [List.mem_map] at hm
    obtain ⟨g0, hg0, rfl⟩ := hm
    by_cases hcm2 : g0.comment = true
    · rw [if_pos hcm2] at hc
      rw [hc] at hcm2
      cases hcm2
    · rw [if_neg hcm2] at hcm
      simp only [List.mem_filter, decide_eq_true_eq] at hcm
      exact hcm.2
  · intro u hu
    rw [hu]
    constructor
    · intro bf hm
      unfold removeCascade at hm
      simp only [List.mem_filter, decide_eq_true_eq] at hm
      exact hm.2.1
    · intro ph hm
      unfold removeCascade at hm
      rw [List.mem_append, List.mem_append] at hm
      rcases hm with (hm | hm) | hm <;>
        exact fun hc f hf => scrubPhaseSection_value_ne u _ ph hm hc f hf

/-- Witness for `remove_cascade_amended`: on the well-formed one-file
graph the cascade leaves no reference to the removed file reference. -/
theorem remove_cascade_amended_witness :
    (findFileRef exSimple (normalizeRemovePath "A.swift") =
      some ⟨"F", false, ⟨some "A.swift", none⟩⟩) ∧
    (∀ fr ∈ (removeOp exSimple "A.swift").2.fileRefs, fr.key ≠ "F") ∧
    (∀ g ∈ (removeOp exSimple "A.swift").2.groups, g.comment = false →
      ∀ c ∈ g.val.children, c.value ≠ "F") :=
  ⟨by decide,
   (remove_cascade_amended exSimple "A.swift" ⟨"F", false, ⟨some "A.swift", none⟩⟩
      (by decide)).1,
   (remove_cascade_amended exSimple "A.swift" ⟨"F", false, ⟨some "A.swift", none⟩⟩
      (by decide)).2.2.1⟩

/-- C3: a remove whose path matches no file reference returns the
not-found outcome carrying at most 10 sampled existing display paths,
and leaves the graph component of the result identical to the input
graph, so any re-serialization of it is identical as well. -/
theorem remove_not_found_safe (pbx : PBX) (fp : String)
    (h : findFileRef pbx (normalizeRemovePath fp) = none) :
    removeOp pbx fp =
      (RemoveOutcome.notFound (normalizeRemovePath fp)
        ((existingPaths pbx).take 10), pbx) ∧
    ((existingPaths pbx).take 10).length ≤ 10 := by
  constructor
  · simp only [removeOp, h]
  · simpa using List.length_take_le 10 (existingPaths pbx)

/-- Witness for `remove_not_found_safe`: a miss on the one-file graph. -/
theorem remove_not_found_safe_witness :
    findFileRef exSimple (normalizeRemovePath "missing/path.swift") = none ∧
    (removeOp exSimple "missing/path.swift" =
      (RemoveOutcome.notFound (normalizeRemovePath "missing/path.swift")
        ((existingPaths exSimple).take 10), exSimple) ∧
      ((existingPaths exSimple).take 10).length ≤ 10) :=
  ⟨by decide, remove_not_found_safe exSimple "missing/path.swift" (by decide)⟩

/-- C7 counterexample: invoking the tool-handling entry point with
missing arguments raises — the throw sits before the try/catch — so not
every invocation yields a structured failure value. -/
theorem tool_errors_counterexample :
    handleToolCall envW "sync_xcode_project" none =
      Except.error "Missing arguments" := rfl

/-- C7 amended: for every invocation of the tool-handling entry point
whose arguments object is present, every error raised inside the switch
— including the unknown-tool throw and throwing collaborators — is
caught and returned as a structured content value, and the call never
raises; only the missing-arguments throw, which sits outside the
try/catch, escapes to the caller. -/
theorem tool_errors_structured_amended (env : Env) (name : String) (a : Args) :
    ∃ out, handleToolCall env name (some a) = Except.ok out :=
  ⟨match runSwitch env name a with
    | Except.ok out => out
    | Except.error e => ⟨Content.text ("Error: " ++ e), none⟩, rfl⟩

/-- C9: an operation name other than add or remove supplied to the
project-sync branch returns the unknown-operation error content before
any mutation, and writes nothing. -/
theorem unsupported_operation_no_write (env : Env) (a : Args)
    (fs : List String) (xp : String) (g : PBX)
    (h1 : env.existsFile (pathJoin a.projectPath "ios") = true)
    (h2 : env.readdir (pathJoin a.projectPath "ios") = Except.ok fs)
    (h3 : fs.find? (fun f => strEndsWith f ".xcodeproj") = some xp)
    (h4 : env.existsFile (pathJoin (pathJoin (pathJoin a.projectPath "ios") xp)
        "project.pbxproj") = true)
    (h5 : env.parseProject (pathJoin (pathJoin (pathJoin a.projectPath "ios") xp)
        "project.pbxproj") = Except.ok g)
    (h6 : a.operation ≠ "add") (h7 : a.operation ≠ "remove") :
    handleToolCall env "sync_xcode_project" (some a) =
      Except.ok ⟨Content.text ("Error: Unknown operation " ++ a.operation ++
        ". Use add or remove."), none⟩ := by
  have hbranch : runSwitch env "sync_xcode_project" a =
      syncOp env a.projectPath a.operation a.filePath := rfl
  simp only [handleToolCall]
  rw [hbranch]
  simp only [syncOp, h1, h2, h3, h4, h5, Except.bind]
  simp [h6, h7]

/-- Witness for `unsupported_operation_no_write` on the concrete
environment. -/
theorem unsupported_operation_no_write_witness :
    (⟨"root", "rename", "X.swift", "", "", "", "", []⟩ : Args).operation ≠ "add" ∧
    handleToolCall envW "sync_xcode_project"
        (some ⟨"root", "rename", "X.swift", "", "", "", "", []⟩) =
      Except.ok ⟨Content.text ("Error: Unknown operation " ++ "rename" ++
        ". Use add or remove."), none⟩ :=
  ⟨by decide,
   unsupported_operation_no_write envW _ ["App.xcodeproj"] "App.xcodeproj" exSimple
     (by decide) rfl (by decide) (by decide) rfl (by decide) (by decide)⟩

/-- C10: an add whose target path does not exist on disk under the ios
directory returns the file-does-not-exist error content before any
mutation — the existence check is enforced inside the add branch — and
writes nothing, leaving graph and persisted file untouched. -/
theorem add_missing_file_no_write (env : Env) (a : Args)
    (fs : List String) (xp : String) (g : PBX)
    (h1 : env.existsFile (pathJoin a.projectPath "ios") = true)
    (h2 : env.readdir (pathJoin a.projectPath "ios") = Except.ok fs)
    (h3 : fs.find? (fun f => strEndsWith f ".xcodeproj") = some xp)
    (h4 : env.existsFile (pathJoin (pathJoin (pathJoin a.projectPath "ios") xp)
        "project.pbxproj") = true)
    (h5 : env.parseProject (pathJoin (pathJoin (pathJoin a.projectPath "ios") xp)
        "project.pbxproj") = Except.ok g)
    (hadd : a.operation = "add")
    (hex : env.existsFile (pathJoin (pathJoin a.projectPath "ios") a.filePath)
        = false) :
    handleToolCall env "sync_xcode_project" (some a) =
      Except.ok ⟨Content.text ("Error: File does not exist: " ++
        pathJoin (pathJoin a.projectPath "ios") a.filePath), none⟩ := by
  have hbranch : runSwitch env "sync_xcode_project" a =
      syncOp env a.projectPath a.operation a.filePath := rfl
  simp only [handleToolCall]
  rw [hbranch]
  simp only [syncOp, h1, h2, h3, h4, h5, Except.bind]
  simp [hadd, hex]

/-- Witness for `add_missing_file_no_write` on the concrete
environment, whose one missing file is the add target. -/
theorem add_missing_file_no_write_witness :
    envW.existsFile (pathJoin (pathJoin "root" "ios") "Missing.swift") = false ∧
    handleToolCall envW "sync_xcode_project"
        (some ⟨"root", "add", "Missing.swift", "", "", "", "", []⟩) =
      Except.ok ⟨Content.text ("Error: File does not exist: " ++
        pathJoin (pathJoin "root" "ios") "Missing.swift"), none⟩ :=
  ⟨by decide,
   add_missing_file_no_write envW _ ["App.xcodeproj"] "App.xcodeproj" exSimple
     (by decide) rfl (by decide) (by decide) rfl (by decide) (by decide)⟩

/-! Round-trip lemmas for the spec-modelled serializer. -/

/-- The kind token parses back to the kind. -/
theorem kindOfString_kindStr (k : Kind) : kindOfString (kindStr k) = some k := by
  cases k <;> decide

/-- The tag token parses back to the tag. -/
theorem tagOfString_tagStr (t : Tag) : tagOfString (tagStr t) = some t := by
  cases t <;> decide

/-- The role token parses back to the role. -/
theorem roleOfString_roleStr (r : Role) : roleOfString (roleStr r) = some r := by
  cases r <;> decide

/-- Parsing a serialized FileRecord section recovers it and the rest. -/
theorem parseFiles_serializeFiles (fs : List SFileRecord) (rest : List String) :
    parseFiles (serializeFiles fs ++ rest) = some (fs, rest) := by
  induction fs with
  | nil => simp [serializeFiles, parseFiles]
  | cons f fs ih => simp [serializeFiles, parseFiles, kindOfString_kindStr, ih]

/-- Parsing a serialized BuildMembership section recovers it. -/
theorem parseMemberships_serializeMemberships (ms : List SBuildMembership)
    (rest : List String) :
    parseMemberships (serializeMemberships ms ++ rest) = some (ms, rest) := by
  induction ms with
  | nil => simp [serializeMemberships, parseMemberships]
  | cons m ms ih => simp [serializeMemberships, parseMemberships, ih]

/-- Parsing a serialized children list recovers it. -/
theorem parseChildren_serializeChildren (cs : List SChild) (rest : List String) :
    parseChildren (serializeChildren cs ++ rest) = some (cs, rest) := by
  induction cs with
  | nil => simp [serializeChildren, parseChildren]
  | cons c cs ih => simp [serializeChildren, parseChildren, tagOfString_tagStr, ih]

/-- Parsing a serialized members list recovers it. -/
theorem parseMembers_serializeMembers (ms : List String) (rest : List String) :
    parseMembers (serializeMembers ms ++ rest) = some (ms, rest) := by
  induction ms with
  | nil => simp [serializeMembers, parseMembers]
  | cons m ms ih => simp [serializeMembers, parseMembers, ih]

/-- Parsing a serialized Group section recovers it. -/
theorem parseGroups_serializeGroups (gs : List SGroup) (rest : List String) :
    parseGroups (serializeGroups gs ++ rest) = some (gs, rest) := by
  induction gs with
  | nil => simp [serializeGroups, parseGroups]
  | cons g gs ih =>
      simp only [serializeGroups, parseGroups, List.cons_append, List.append_assoc]
      split
      · rename_i cs r heq
        rw [parseChildren_serializeChildren] at heq
        simp only [Option.some.injEq, Prod.mk.injEq] at heq
        obtain ⟨rfl, rfl⟩ := heq
        simp [ih]
      · rename_i heq
        rw [parseChildren_serializeChildren] at heq
        simp at heq

/-- Parsing a serialized BuildPhase section recovers it. -/
theorem parsePhases_serializePhases (ps : List SBuildPhase) (rest : List String) :
    parsePhases (serializePhases ps ++ rest) = some (ps, rest) := by
  induction ps with
  | nil => simp [serializePhases, parsePhases]
  | cons p ps ih =>
      simp only [serializePhases, parsePhases, List.cons_append, List.append_assoc,
        roleOfString_roleStr]
      split
      · rename_i ms r heq
        rw [parseMembers_serializeMembers] at heq
        simp only [Option.some.injEq, Prod.mk.injEq] at heq
        obtain ⟨rfl, rfl⟩ := heq
        simp [ih]
      · rename_i heq
        rw [parseMembers_serializeMembers] at heq
        simp at heq

/-- Parsing a serialized BuildPhase section with nothing after it. -/
theorem parsePhases_serializePhases_nil (ps : List SBuildPhase) :
    parsePhases (serializePhases ps) = some (ps, []) := by
  simpa using parsePhases_serializePhases ps []

/-- Full round trip for the spec-modelled parse and serialize. -/
theorem parse_serialize (g : SGraph) : parse (serialize g) = some g := by
  simp [parse, serialize, List.append_assoc, parseFiles_serializeFiles,
    parseMemberships_serializeMemberships, parseGroups_serializeGroups,
    parsePhases_serializePhases_nil]

/-- C8: serialization round-trips — for every graph g,
parse (serialize g) is graph-equal to g, and for any text T producible
by the Serializer (indeed any parseable text), parsing, re-serializing
and re-parsing is the identity on the parsed graph. -/
theorem serializer_round_trip :
    (∀ g : SGraph, parse (serialize g) = some g) ∧
    (∀ T g, parse T = some g → parse (serialize g) = some g) :=
  ⟨fun g => parse_serialize g, fun _ g _ => parse_serialize g⟩

/-- Witness for `serializer_round_trip`: the concrete one-file graph
round-trips; the hypothesis of the second conjunct is discharged with
the concrete parse of its own serialization. -/
theorem serializer_round_trip_witness :
    parse (serialize exGraph) = some exGraph :=
  (serializer_round_trip).2 (serialize exGraph) exGraph (parse_serialize exGraph)

end RnUpgrader
